import Mathlib

/-!
Verification development for the `earley` parser-generator package
(`grammar.go`, `symbol.go`, `rule.go`, `prefix.go`).

The Go code is shallowly embedded: pointer-linked records (symbols, rules,
prefix-tree nodes) become entries of flat lists addressed by their index,
matching the interning discipline of the source (`name2symbol` interns each
symbol once, so Go pointer equality of symbols coincides with index
equality).  Mutation is modelled by explicit state passing.  Go panics
(index out of range, nil dereference) are modelled by `Option`/`none`.

Go map iteration order is randomized at runtime; functions of the source
that iterate over a map (`Grammar.sortSymbols`) therefore take the
iteration order as an explicit `List Nat` argument.
-/

namespace Glean

/-! ### Identifier validation (`go/token.IsIdentifier`)

`token.IsIdentifier(name)` holds when `name` is nonempty, not a Go
keyword, and every rune is a letter or `_`, or a digit in non-leading
position.  Unicode letters and digits outside ASCII are not modelled
(no claim depends on non-ASCII identifiers). -/

def isGoLetter (c : Char) : Bool :=
  ('a' ≤ c && c ≤ 'z') || ('A' ≤ c && c ≤ 'Z')

def isGoDigit (c : Char) : Bool :=
  '0' ≤ c && c ≤ '9'

def goKeywords : List String :=
  ["break", "case", "chan", "const", "continue", "default", "defer",
   "else", "fallthrough", "for", "func", "go", "goto", "if", "import",
   "interface", "map", "package", "range", "return", "select", "struct",
   "switch", "type", "var"]

def isIdent (s : String) : Bool :=
  match s.data with
  | [] => false
  | c :: rest =>
    !(goKeywords.contains s) &&
    (isGoLetter c || c = '_') &&
    rest.all (fun d => isGoLetter d || d = '_' || isGoDigit d)

/-! ### Data model (`symbol.go`, `rule.go`, `prefix.go`, `Grammar`)

`Sym` is `symbol`: `rules` is the list of ids of the rules whose target
this symbol is; `pfx0` is the `prefix0` back-pointer (a prefix-node id).
`GRule` is `rule`: `target` and `items` are symbol indices (interned
positions in `Grammar.syms`), `fullPfx` is the `fullPrefix` back-pointer.
`PfxNode` is `prefix`: `exts` is `extensions`, a list of prefix-node ids.
Go zero values (nil pointers, nil slices, empty strings) are the
defaults. -/

structure Sym where
  name : String
  rules : List Nat := []
  id : Nat := 0
  pfx0 : Option Nat := none
deriving Repr, DecidableEq

structure GRule where
  name : String
  target : Nat
  items : List Nat
  id : Nat
  fullPfx : Option Nat := none
deriving Repr, DecidableEq

structure PfxNode where
  target : Nat
  length : Nat
  rules : List Nat
  id : Nat
  exts : List Nat := []
deriving Repr, DecidableEq

structure Grammar where
  rulenames : List String := []
  syms : List Sym := []
  rules : List GRule := []
  symbols : List Nat := []
  terminals : List Nat := []
  nonterminals : List Nat := []
  pfxs : List PfxNode := []
  goalname : String := ""
  packname : String := ""
  prepend : String := ""
  goal : Option Nat := none
deriving Repr, DecidableEq

def Grammar.empty : Grammar := {}

/-- `symbol.isTerminal`: terminal symbols are not produced by any rules. -/
def Sym.isTerminal (s : Sym) : Bool :=
  s.rules.length = 0

/-! ### `Grammar.AddRule` and `Grammar.findSymbol` -/

/-- `Grammar.findSymbol`: find or create a symbol from its name; returns
the updated grammar and the symbol's index in `syms`. -/
def Grammar.findSym (g : Grammar) (name : String) : Grammar × Nat :=
  match g.syms.findIdx? (fun s => s.name = name) with
  | some i => (g, i)
  | none => ({ g with syms := g.syms ++ [{ name := name }] }, g.syms.length)

/-- The errors `Grammar.AddRule` can return. -/
inductive ARErr where
  | badName (s : String)
  | badTarget (s : String)
  | badItem (s : String)
  | dupName (s : String)
deriving Repr, DecidableEq

/-- Intern the item symbols, in order, returning their indices
(the loop `for n, i := range items { r.items[n] = g.findSymbol(i) }`). -/
def Grammar.internItems (g : Grammar) : List String → Grammar × List Nat
  | [] => (g, [])
  | it :: rest =>
    let (g1, i) := g.findSym it
    let (g2, idx) := g1.internItems rest
    (g2, i :: idx)

/-- The succeeding tail of `AddRule` (lines 51-64 of `grammar.go`):
record the rule name, intern the target and the items, create the rule
with the next id, append it to the rule list and to the target symbol's
rule list. -/
def Grammar.addRuleGo (g0 : Grammar) (name target : String) (items : List String) :
    Grammar :=
  let g := { g0 with rulenames := g0.rulenames ++ [name] }
  let t := (g.findSym target).2
  let g := (g.findSym target).1
  let itemIdx := (g.internItems items).2
  let g := (g.internItems items).1
  let rid := g.rules.length
  let r : GRule := { name := name, target := t, items := itemIdx, id := rid }
  let g := { g with rules := g.rules ++ [r] }
  { g with syms := g.syms.modify (fun s => { s with rules := s.rules ++ [rid] }) t }

/-- `Grammar.AddRule(name, target, items)`.  Returns the grammar state
after the call (the Go method mutates its receiver) and the error, if
any. -/
def Grammar.addRule (g : Grammar) (name target : String) (items : List String) :
    Grammar × Option ARErr :=
  if !isIdent name then (g, some (.badName name))
  else if !isIdent target then (g, some (.badTarget target))
  else match items.find? (fun it => !isIdent it) with
  | some it => (g, some (.badItem it))
  | none =>
    if g.rulenames.contains name then (g, some (.dupName name))
    else (g.addRuleGo name target items, none)

/-! ### `Grammar.sortSymbols`

The Go code iterates over the map `g.name2symbol`; the iteration order is
randomized by the runtime, so it is taken here as an explicit argument
`order` (a list of symbol indices).  Terminals are placed at the front in
iteration order, non-terminals fill the array from the back (hence appear
in reverse iteration order); each symbol's `id` becomes its position.
The `t != u` panic guard is modelled by `none`. -/

def Grammar.symIsTerminal (g : Grammar) (i : Nat) : Bool :=
  ((g.syms.get? i).map Sym.isTerminal).getD false

def Grammar.sortSymbols (g : Grammar) (order : List Nat) : Option Grammar :=
  let ts := order.filter (fun i => g.symIsTerminal i)
  let us := (order.filter (fun i => ! g.symIsTerminal i)).reverse
  if ts.length + us.length ≠ g.syms.length then none
  else
    let arranged := ts ++ us
    let syms' := arranged.enum.foldl
      (fun ss ki => ss.modify (fun s => { s with id := ki.1 }) ki.2) g.syms
    some { g with symbols := arranged, terminals := ts, nonterminals := us,
                  syms := syms' }

/-! ### `symbol.sortRules`

Rules are sorted lexicographically by the id sequences of their items
(shorter prefixes first).  `lexLt` is the comparator of `sortRules`;
`sort.Slice` guarantees only sortedness, which `List.insertionSort`
provides.  (Ties arise only between rules with identical item lists; for
those the relative order is unspecified in Go as well.) -/

def lexLt : List Nat → List Nat → Bool
  | _, [] => false
  | [], _ :: _ => true
  | a :: u, b :: v => if a ≠ b then decide (a < b) else lexLt u v

def Grammar.idOf (g : Grammar) (i : Nat) : Nat :=
  ((g.syms.get? i).map Sym.id).getD 0

def Grammar.itemsOf? (g : Grammar) (rid : Nat) : Option (List Nat) :=
  (g.rules.get? rid).map GRule.items

/-- The id sequence of a rule's items (the sort key of `sortRules`). -/
def Grammar.keyOf (g : Grammar) (rid : Nat) : List Nat :=
  ((g.itemsOf? rid).getD []).map g.idOf

def Grammar.ruleLt (g : Grammar) (r1 r2 : Nat) : Bool :=
  lexLt (g.keyOf r1) (g.keyOf r2)

/-- The non-strict order corresponding to the `sortRules` comparator. -/
def Grammar.ruleLe (g : Grammar) (r1 r2 : Nat) : Prop :=
  ¬ g.ruleLt r2 r1 = true

instance (g : Grammar) : DecidableRel g.ruleLe := by
  unfold Grammar.ruleLe; infer_instance

def Grammar.sortRulesAt (g : Grammar) (i : Nat) : Grammar :=
  { g with syms :=
      g.syms.modify (fun s => { s with rules := s.rules.insertionSort g.ruleLe }) i }

/-- `for _, s := range g.symbols { s.sortRules() }` in `WriteParser`. -/
def Grammar.sortAllRules (g : Grammar) : Grammar :=
  g.symbols.foldl Grammar.sortRulesAt g

/-! ### Prefix-tree construction (`makePrefixes`, `makeExtensions`)

`makeExtensions` recurses over the trie being built; the recursion has no
structurally decreasing argument in the source, so it takes a fuel
parameter (`none` on exhaustion; `Grammar.trieFuel` below is always
sufficient).  The slice indexings `r[0]`, `r[i].items[n]`, `r[j].items[n]`
of the source panic when out of range; those panics are `none`. -/

def Grammar.setFullPfx (g : Grammar) (rid : Nat) (p : Option Nat) : Grammar :=
  { g with rules := g.rules.modify (fun r => { r with fullPfx := p }) rid }

def Grammar.setExts (g : Grammar) (pid : Nat) (e : List Nat) : Grammar :=
  { g with pfxs := g.pfxs.modify (fun p => { p with exts := e }) pid }

def Grammar.pushExt (g : Grammar) (pid c : Nat) : Grammar :=
  { g with pfxs := g.pfxs.modify (fun p => { p with exts := p.exts ++ [c] }) pid }

def Grammar.setPfx0 (g : Grammar) (si : Nat) (p : Option Nat) : Grammar :=
  { g with syms := g.syms.modify (fun s => { s with pfx0 := p }) si }

/-- The inner scan `for j < len(r) && r[j].items[n] == x { j++ }`:
split off the maximal leading run of rules whose item at position `n`
is `x`.  An out-of-range access is a panic (`none`). -/
def Grammar.takeRun (g : Grammar) (n x : Nat) : List Nat → Option (List Nat × List Nat)
  | [] => some ([], [])
  | rid :: rest =>
    match g.itemsOf? rid with
    | none => none
    | some its =>
      match its.get? n with
      | none => none
      | some y =>
        if y = x then
          match g.takeRun n x rest with
          | none => none
          | some (a, b) => some (rid :: a, b)
        else some ([], rid :: rest)

mutual

/-- `Grammar.makeExtensions(p)`: extend the node `pid` by one symbol in
each production.  If the first remaining rule is exactly as long as the
node's length it is marked complete (its `fullPrefix` is set to this
node) and removed; the remaining rules are partitioned into runs by
their item at position `length`, each run becoming a child node. -/
def Grammar.makeExts : Nat → Grammar → Nat → Option Grammar
  | 0, _, _ => none
  | fuel+1, g, pid =>
    match g.pfxs.get? pid with
    | none => none
    | some node =>
      match node.rules with
      | [] => none
      | hd :: tl =>
        match g.itemsOf? hd with
        | none => none
        | some hits =>
          let dropped := hits.length = node.length
          let g := if dropped then g.setFullPfx hd (some pid) else g
          let r := if dropped then tl else hd :: tl
          let g := g.setExts pid []
          Grammar.extLoop fuel g pid node.target node.length r

/-- The outer loop `for i, j := 0, 0; i < len(r); i = j` of
`makeExtensions`: take the next run, create a child node for it,
recurse into the child, and continue with the remainder. -/
def Grammar.extLoop : Nat → Grammar → Nat → Nat → Nat → List Nat → Option Grammar
  | 0, _, _, _, _, _ => none
  | _+1, g, _, _, _, [] => some g
  | fuel+1, g, pid, tgt, n, rid :: rest =>
    match g.itemsOf? rid with
    | none => none
    | some its =>
      match its.get? n with
      | none => none
      | some x =>
        match g.takeRun n x rest with
        | none => none
        | some (run, rest') =>
          let newid := g.pfxs.length
          let child : PfxNode :=
            { target := tgt, length := n + 1, rules := rid :: run, id := newid }
          let g := { g with pfxs := g.pfxs ++ [child] }
          let g := g.pushExt pid newid
          match Grammar.makeExts fuel g newid with
          | none => none
          | some g => Grammar.extLoop fuel g pid tgt n rest'

end

/-- `makePrefixes` body for one non-terminal: reset the `fullPrefix` of
its rules, create its 0-length root node, build its subtree, and record
the root as the symbol's `prefix0`. -/
def Grammar.makeRoots (fuel : Nat) : Grammar → List Nat → Option Grammar
  | g, [] => some g
  | g, si :: rest =>
    match g.syms.get? si with
    | none => none
    | some s =>
      let g := s.rules.foldl (fun g' rid => g'.setFullPfx rid none) g
      let pidNew := g.pfxs.length
      let p : PfxNode := { target := si, length := 0, rules := s.rules, id := pidNew }
      let g := { g with pfxs := g.pfxs ++ [p] }
      match g.makeExts fuel pidNew with
      | none => none
      | some g => Grammar.makeRoots fuel (g.setPfx0 si (some pidNew)) rest

/-- A fuel bound that the `makeExtensions` recursion never exhausts. -/
def Grammar.trieFuel (g : Grammar) : Nat :=
  ((g.rules.map (fun r => r.items.length + 2)).sum + 2) * (g.rules.length + 2)
    + g.syms.length + 16

/-- `Grammar.makePrefixes`: create all the rule prefixes. -/
def Grammar.makePfxs (g : Grammar) : Option Grammar :=
  Grammar.makeRoots g.trieFuel { g with pfxs := [] } g.nonterminals

/-- `prefix.completedRule`: the rule completely represented by a node,
if any.  The outer `none` is the panic on an empty rule list. -/
def Grammar.completedRule (g : Grammar) (p : PfxNode) : Option (Option Nat) :=
  match p.rules with
  | [] => none
  | r0 :: _ =>
    match g.itemsOf? r0 with
    | none => none
    | some its => some (if its.length = p.length then some r0 else none)

/-! ### Emitted-text templates (the raw-string literals of `grammar.go`) -/

def boilerplate : String :=
  "package #P\n\nimport (\n\t\"fmt\"\n\n\t\"github.com/pat42smith/glean/gleanerrors\"\n)\n\ntype @_Prefix int\ntype @_Rule int\ntype @_Symbol int\n\ntype @_Match struct \x7b\n\tprefix          @_Prefix\n\tcompletePrefix  @_Prefix\n\tstart, end      int\n\tshorter, last   *@_Match\n\tshorter2, last2 *@_Match\n\x7d\n\nfunc @Parse(tokens []interface\x7b\x7d) (#G, error) \x7b\n\tvar parser @_Parser\n\tparser.tokens = tokens\n\treturn parser.parse()\n\x7d\n\nfunc (parser *@_Parser) parse() (#G, error) \x7b\n\t// fmt.Fprintln(os.Stderr, parser.tokens)\n\tparser.matches = make([]map[@_Prefix][]*@_Match, len(parser.tokens)+1)\n\tparser.todo = make([][]*@_Match, len(parser.tokens)+1)\n\tfor end := range parser.matches \x7b\n\t\tparser.matches[end] = make(map[@_Prefix][]*@_Match)\n\t\x7d\n\n\tvar zero #G\n\tif len(parser.tokens) == 0 \x7b\n\t\treturn zero, gleanerrors.NoInput\x7b\x7d\n\t\x7d\n\tif e := parser.findMatches(); e != nil \x7b\n\t\treturn zero, e\n\t\x7d\n\tif e := parser.findTrace(); e != nil \x7b\n\t\treturn zero, e\n\t\x7d\n\n\treturn parser.applyTrace(), nil\n\x7d\n\nfunc (parser *@_Parser) addMatch(prefix @_Prefix, start, end int, shorter, last *@_Match) \x7b\n\tlist := parser.matches[end][prefix]\n\tfor _, m := range list \x7b\n\t\tif m.start == start \x7b\n\t\t\tif m.shorter != shorter || m.last != last \x7b\n\t\t\t\tif m.shorter2 == nil \x7b\n\t\t\t\t\tm.shorter2 = shorter\n\t\t\t\t\tm.last2 = last\n\t\t\t\t\x7d\n\t\t\t\x7d\n\t\t\treturn\n\t\t\x7d\n\t\x7d\n\tm := @_Match\x7bprefix, -1, start, end, shorter, last, nil, nil\x7d\n\tparser.matches[end][prefix] = append(list, &m)\n\tparser.todo[end] = append(parser.todo[end], &m)\n\x7d\n\nfunc (parser *@_Parser) findMatches() error \x7b\n\tparser.addMatch(#g, 0, 0, nil, nil)\n\tvar savePrefixes []@_Prefix\n\tfor end := range parser.todo \x7b\n\t\tsavePrefixes = savePrefixes[:0]\n\t\tfor p := range parser.matches[end] \x7b\n\t\t\tsavePrefixes = append(savePrefixes, p)\n\t\t\x7d\n\n\t\tvar token @_Symbol = -1\n\t\tif end < len(parser.tokens) \x7b\n\t\t\ttoken = @_tokenType(parser.tokens[end])\n\t\t\x7d\n\t\tfor k := 0; k < len(parser.todo[end]); k++ \x7b\n\t\t\tt := parser.todo[end][k]\n\t\t\tfor _, p := range @_followers[t.prefix] \x7b\n\t\t\t\tparser.addMatch(p, end, end, nil, nil)\n\t\t\t\x7d\n\t\t\tfor _, e := range @_extensions[t.prefix] \x7b\n\t\t\t\tif list, have := parser.matches[end][e.by]; have \x7b\n\t\t\t\t\tfor _, m := range list \x7b\n\t\t\t\t\t\tif m.start == end \x7b\n\t\t\t\t\t\t\tparser.addMatch(e.to, t.start, end, t, m)\n\t\t\t\t\t\t\tbreak\n\t\t\t\t\t\t\x7d\n\t\t\t\t\t\x7d\n\t\t\t\t\x7d\n\t\t\t\x7d\n\t\t\tif s := @_symbolFinished[t.prefix]; s >= 0 \x7b\n\t\t\t\tfor _, e := range @_extendedBy[s] \x7b\n\t\t\t\t\tif list, have := parser.matches[t.start][e.from]; have \x7b\n\t\t\t\t\t\tfor _, m := range list \x7b\n\t\t\t\t\t\t\tparser.addMatch(e.to, m.start, end, m, t)\n\t\t\t\t\t\t\x7d\n\t\t\t\t\t\x7d\n\t\t\t\t\x7d\n\t\t\t\x7d\n\t\t\tif token >= 0 \x7b\n\t\t\t\tfor _, e := range @_extendedBy[token] \x7b\n\t\t\t\t\tif list, have := parser.matches[end][e.from]; have \x7b\n\t\t\t\t\t\tfor _, m := range list \x7b\n\t\t\t\t\t\t\tparser.addMatch(e.to, m.start, end+1, m, nil)\n\t\t\t\t\t\t\x7d\n\t\t\t\t\t\x7d\n\t\t\t\t\x7d\n\t\t\t\x7d\n\t\t\x7d\n\t\tif token >= 0 && len(parser.todo[end+1]) == 0 \x7b\n\t\t\treturn gleanerrors.Unexpected\x7bgleanerrors.MakeLocation(parser.tokens, end)\x7d\n\t\t\x7d\n\t\x7d\n\tparser.endPrefixes = savePrefixes\n\treturn nil\n\x7d\n\nfunc (parser *@_Parser) ambiguous(m1, m2 *@_Match) error \x7b\n\treturn gleanerrors.Ambiguous\x7b\n\t\tgleanerrors.MakeRange(parser.tokens, m1.start, m1.end-1),\n\t\t@_ruledesc[@_prefix2rule[m1.completePrefix]],\n\t\t@_ruledesc[@_prefix2rule[m2.completePrefix]],\n\t\x7d\n\x7d\n\nfunc (parser *@_Parser) findTrace() error \x7b\n\tn := len(parser.tokens)\n\tvar goalmatch *@_Match\n\tfor _, p := range @_goalPrefixes \x7b\n\t\tif list, have := parser.matches[n][p]; have \x7b\n\t\t\tfor _, m := range list \x7b\n\t\t\t\tif m.start == 0 \x7b\n\t\t\t\t\tm.completePrefix = m.prefix\n\t\t\t\t\tif goalmatch == nil \x7b\n\t\t\t\t\t\tgoalmatch = m\n\t\t\t\t\t\x7d else \x7b\n\t\t\t\t\t\treturn parser.ambiguous(goalmatch, m)\n\t\t\t\t\t\x7d\n\t\t\t\t\tbreak\n\t\t\t\t\x7d\n\t\t\t\x7d\n\t\t\x7d\n\t\x7d\n\tif goalmatch == nil \x7b\n\t\treturn gleanerrors.Unexpected\x7bgleanerrors.Location\x7blen(parser.tokens), nil\x7d\x7d\n\t\x7d\n\n\tparser.trace = parser.trace[:0]\n\tparser.trace = append(parser.trace, @_appliers[goalmatch.prefix])\n\n\tvar stack []*@_Match\n\tstack = append(stack, goalmatch)\n\tfor len(stack) > 0 \x7b\n\t\tm := stack[len(stack)-1]\n\t\tstack = stack[:len(stack)-1]\n\n\t\tif m.shorter != nil \x7b\n\t\t\tm.shorter.completePrefix = m.completePrefix\n\t\t\x7d\n\t\tif m.shorter2 != nil \x7b\n\t\t\tm.shorter2.completePrefix = m.completePrefix\n\t\t\x7d\n\t\tif m.last != nil \x7b\n\t\t\tm.last.completePrefix = m.last.prefix\n\t\t\x7d\n\t\tif m.last2 != nil \x7b\n\t\t\tm.last2.completePrefix = m.last2.prefix\n\t\t\x7d\n\n\t\tif m.shorter2 != nil || m.last2 != nil \x7b\n\t\t\tif m.shorter2 != nil && m.shorter2 != m.shorter \x7b\n\t\t\t\treturn parser.ambiguous(m, m)\n\t\t\t\x7d\n\t\t\tif m.last2 == nil || m.last2 == m.last \x7b\n\t\t\t\tpanic(\"bug\")\n\t\t\t\x7d\n\t\t\treturn parser.ambiguous(m.last, m.last2)\n\t\t\x7d\n\n\t\tif m.shorter != nil \x7b\n\t\t\tm.shorter.completePrefix = m.completePrefix\n\t\t\tstack = append(stack, m.shorter)\n\t\t\x7d\n\t\tif m.last != nil \x7b\n\t\t\tparser.trace = append(parser.trace, @_appliers[m.last.prefix])\n\t\t\tstack = append(stack, m.last)\n\t\t\x7d else \x7b\n\t\t\tt := @_lastTerminal[m.prefix]\n\t\t\tif t >= 0 \x7b\n\t\t\t\tparser.trace = append(parser.trace, @_applyTerminal[t])\n\t\t\t\x7d\n\t\t\x7d\n\t\x7d\n\n\treturn nil\n\x7d\n"

def parserTypeHeader : String :=
  "\ntype @_Parser struct \x7b\n\ttokens      []interface\x7b\x7d\n\tmatches     []map[@_Prefix][]*@_Match\n\ttodo        [][]*@_Match\n\ttrace       []func(*@_Parser)\n\ttokensUsed  int\n\tendPrefixes []@_Prefix\n\n"

def applyTraceHeader : String :=
  "\nfunc (parser *@_Parser) applyTrace() #G \x7b\n\tparser.tokensUsed = 0\n"

def applyTraceTail : String :=
  "\n\tfor n := len(parser.trace) - 1; n >= 0; n-- \x7b\n\t\tparser.trace[n](parser)\n\t\x7d\n\treturn parser.stack#G[0]\n\x7d\n"

def extendedByHeader : String :=
  "\ntype @_ExtBy struct \x7b\n\tfrom, to @_Prefix\n\x7d\n\nvar @_extendedBy = [][]@_ExtBy\x7b\n"

def extensionsHeader : String :=
  "\ntype @_Extend struct \x7b\n\tby, to @_Prefix\n\x7d\n\nvar @_extensions = [][]@_Extend\x7b\n"

def tokenTypeHeader : String :=
  "\nfunc @_tokenType(t interface\x7b\x7d) @_Symbol \x7b\n\tswitch t.(type) \x7b\n"

def tokenTypeTail : String :=
  "\tdefault:\n\t\tpanic(fmt.Sprintf(\"input token (type %T) is not a terminal symbol\", t))\n\t\x7d\n\x7d\n"

def ruleDescHeader : String :=
  "\nvar @_ruledesc = []gleanerrors.Rule\x7b\n"

/-! ### `Grammar.addText`: template expansion

`addText` copies a template to the output, replacing `@` by the prepend
argument and `#G`/`#g`/`#P` by the goal name, the goal's `prefix0` id,
and the package name.  A `#` as the last character indexes past the end
of the string (panic); `#G`/`#g` dereference `g.goal` (and `prefix0`),
nil when unset (panic).  Any other `#x` is copied unchanged. -/

def Grammar.goalSym (g : Grammar) : Option Sym :=
  g.goal.bind (fun i => g.syms.get? i)

def Grammar.addTextChars (g : Grammar) : List Char → Option (List Char)
  | [] => some []
  | '@' :: rest => (g.addTextChars rest).map (fun l => g.prepend.data ++ l)
  | '#' :: rest =>
    match rest with
    | [] => none
    | d :: rest' =>
      let t? : Option (List Char) :=
        if d = 'G' then (g.goalSym.map (fun s => s.name.data))
        else if d = 'g' then
          (g.goalSym.bind Sym.pfx0).map (fun i => (toString i).data)
        else if d = 'P' then some g.packname.data
        else some ('#' :: [d])
      match t? with
      | none => none
      | some t => (g.addTextChars rest').map (fun l => t ++ l)
  | c :: rest => (g.addTextChars rest).map (fun l => c :: l)

def Grammar.addText (g : Grammar) (s : String) : Option String :=
  (g.addTextChars s.data).map List.asString

/-! ### The table emitters (`addParserType` … `addRuleDescriptions`)

Each returns the text it appends to the builder; panics (out-of-range
indexing, nil `prefix0`/`fullPrefix` dereference) are `none`. -/

/-- `addSlice`: an integer slice as `\x7b1, 2, 3\x7d`. -/
def addSlice (l : List Int) : String :=
  "\x7b" ++ String.intercalate ", " (l.map toString) ++ "\x7d"

def Grammar.symNameAt (g : Grammar) (i : Nat) : Option String :=
  (g.syms.get? i).map Sym.name

def Grammar.symIdAt (g : Grammar) (i : Nat) : Option Nat :=
  (g.syms.get? i).map Sym.id

/-- `%-*s`: left-justify in a field of width `w`. -/
def padRight (s : String) (w : Nat) : String :=
  s ++ List.asString (List.replicate (w - s.length) ' ')

def Grammar.addParserType (g : Grammar) : Option String := do
  let hdr ← g.addText parserTypeHeader
  let names ← g.symbols.mapM g.symNameAt
  let maxLen := (names.map String.length).foldl max 0
  let lines := names.map (fun nm => "\tstack" ++ padRight nm maxLen ++ " []" ++ nm ++ "\n")
  return hdr ++ String.join lines ++ "\x7d\n"

def Grammar.addApplyTrace (g : Grammar) : Option String := do
  let hdr ← g.addText applyTraceHeader
  let names ← g.nonterminals.mapM g.symNameAt
  let lines := names.map
    (fun nm => "\tparser.stack" ++ nm ++ " = parser.stack" ++ nm ++ "[:0]\n")
  let tail ← g.addText applyTraceTail
  return hdr ++ String.join lines ++ tail

/-- The symbol `q.rules[0].items[p.length]` by which child `cid` extends
its parent of length `n` (a symbol index). -/
def Grammar.extSymOf (g : Grammar) (n cid : Nat) : Option Nat := do
  let child ← g.pfxs.get? cid
  let r0 ← child.rules.head?
  let its ← g.itemsOf? r0
  its.get? n

def Grammar.addFollowers (g : Grammar) : Option String := do
  let hdr ← g.addText "\nvar @_followers = [][]@_Prefix\x7b\n"
  let rows ← g.pfxs.mapM (fun p => do
    let entries ← p.exts.mapM (fun cid => do
      let si ← g.extSymOf p.length cid
      let s ← g.syms.get? si
      if s.isTerminal then return (none : Option Nat)
      else
        match s.pfx0 with
        | none => none
        | some p0 => return some p0)
    return "\t" ++ addSlice ((entries.filterMap id).map Int.ofNat) ++ ",\n")
  return hdr ++ String.join rows ++ "\x7d\n"

def Grammar.addLastTerminal (g : Grammar) : Option String := do
  let hdr ← g.addText "\nvar @_lastTerminal = []@_Symbol\x7b\n"
  let rows ← g.pfxs.mapM (fun p => do
    let t ←
      if p.length > 0 then do
        let r0 ← p.rules.head?
        let its ← g.itemsOf? r0
        let si ← its.get? (p.length - 1)
        let s ← g.syms.get? si
        pure (if s.isTerminal then Int.ofNat s.id else -1)
      else pure (-1 : Int)
    return "\t" ++ toString t ++ ",\n")
  return hdr ++ String.join rows ++ "\x7d\n"

/-- `ext[i] = append(ext[i], pair)` with the panic on an out-of-range
index. -/
def pushPairAt (l : List (List (Nat × Nat))) (i : Nat) (pr : Nat × Nat) :
    Option (List (List (Nat × Nat))) :=
  if i < l.length then some (l.modify (fun xs => xs ++ [pr]) i) else none

def pairRow (e : List (Nat × Nat)) : String :=
  "\t\x7b" ++
    String.intercalate ", " (e.map (fun pr => addSlice [Int.ofNat pr.1, Int.ofNat pr.2])) ++
    "\x7d,\n"

def Grammar.addExtendedBy (g : Grammar) : Option String := do
  let hdr ← g.addText extendedByHeader
  let ext0 : List (List (Nat × Nat)) := List.replicate g.symbols.length []
  let ext ← g.pfxs.foldlM (fun acc p =>
    p.exts.foldlM (fun acc2 cid => do
      let si ← g.extSymOf p.length cid
      let sid ← g.symIdAt si
      pushPairAt acc2 sid (p.id, cid)) acc) ext0
  return hdr ++ String.join (ext.map pairRow) ++ "\x7d\n"

def Grammar.addExtensions (g : Grammar) : Option String := do
  let hdr ← g.addText extensionsHeader
  let ext0 : List (List (Nat × Nat)) := List.replicate g.pfxs.length []
  let ext ← g.pfxs.foldlM (fun acc p =>
    p.exts.foldlM (fun acc2 cid => do
      let si ← g.extSymOf p.length cid
      let s ← g.syms.get? si
      if s.isTerminal then return acc2
      else
        s.rules.foldlM (fun acc3 rid => do
          let r ← g.rules.get? rid
          match r.fullPfx with
          | none => none
          | some fp => pushPairAt acc3 p.id (fp, cid)) acc2) acc) ext0
  return hdr ++ String.join (ext.map pairRow) ++ "\x7d\n"

def Grammar.addSymbolFinished (g : Grammar) : Option String := do
  let hdr ← g.addText "\nvar @_symbolFinished = []int\x7b\n"
  let rows ← g.pfxs.mapM (fun p => do
    match ← g.completedRule p with
    | some rid => do
      let r ← g.rules.get? rid
      let tid ← g.symIdAt r.target
      return "\t" ++ toString tid ++ ",\n"
    | none => return "\t-1,\n")
  return hdr ++ String.join rows ++ "\x7d\n"

def Grammar.addTokenType (g : Grammar) : Option String := do
  let hdr ← g.addText tokenTypeHeader
  let rows ← g.terminals.mapM (fun si => do
    let s ← g.syms.get? si
    return "\tcase " ++ s.name ++ ":\n\t\treturn " ++ toString s.id ++ "\n")
  return hdr ++ String.join rows ++ tokenTypeTail

def Grammar.addGoalPrefixes (g : Grammar) : Option String := do
  let hdr ← g.addText "\nvar @_goalPrefixes = []@_Prefix\x7b\n"
  let gs ← g.goalSym
  let rows ← gs.rules.mapM (fun rid => do
    let r ← g.rules.get? rid
    match r.fullPfx with
    | none => none
    | some fp => return "\t" ++ toString fp ++ ",\n")
  return hdr ++ String.join rows ++ "\x7d\n"

def Grammar.addApplyTerminal (g : Grammar) : Option String := do
  let hdr ← g.addText "\nvar @_applyTerminal = []func(*@_Parser)\x7b\n"
  let fnHdr ← g.addText "\tfunc(parser *@_Parser) \x7b\n"
  let rows ← g.terminals.mapM (fun si => do
    let s ← g.syms.get? si
    let stk := "parser.stack" ++ s.name
    return fnHdr ++
      "\t\t" ++ stk ++ " = append(" ++ stk ++ ", parser.tokens[parser.tokensUsed].(" ++
        s.name ++ "))\n" ++
      "\t\tparser.tokensUsed++\n" ++
      "\t\x7d,\n")
  return hdr ++ String.join rows ++ "\x7d\n"

/-- The body of one generated applier: pop the items in reverse, call
the user's reduction function, push the result. -/
def Grammar.applierBody (g : Grammar) (rid : Nat) : Option String := do
  let r ← g.rules.get? rid
  let itemNames ← r.items.mapM g.symNameAt
  let ix := (List.range r.items.length).reverse
  let pops ← ix.mapM (fun n => do
    let nm ← itemNames.get? n
    return "\t\tx" ++ toString n ++ " := parser.stack" ++ nm ++
        "[len(parser.stack" ++ nm ++ ")-1]\n" ++
      "\t\tparser.stack" ++ nm ++ " = parser.stack" ++ nm ++
        "[:len(parser.stack" ++ nm ++ ")-1]\n")
  let args :=
    if r.items.length > 0 then
      "x0" ++ String.join ((List.range (r.items.length - 1)).map
        (fun n => ", x" ++ toString (n + 1)))
    else ""
  let tgt ← g.symNameAt r.target
  return String.join pops ++ "\t\ty := " ++ r.name ++ "(" ++ args ++ ")\n" ++
    "\t\tparser.stack" ++ tgt ++ " = append(parser.stack" ++ tgt ++ ", y)\n"

def Grammar.addAppliers (g : Grammar) : Option String := do
  let hdr ← g.addText "\nvar @_appliers = []func(*@_Parser)\x7b\n"
  let fnHdr ← g.addText "\tfunc(parser *@_Parser) \x7b\n"
  let rows ← g.pfxs.mapM (fun p => do
    match ← g.completedRule p with
    | none => return "\tnil,\n"
    | some rid => do
      let body ← g.applierBody rid
      return fnHdr ++ body ++ "\t\x7d,\n")
  return hdr ++ String.join rows ++ "\x7d\n"

def Grammar.addPfx2Rule (g : Grammar) : Option String := do
  let hdr ← g.addText "\nvar @_prefix2rule = []@_Rule\x7b\n"
  let rows ← g.pfxs.mapM (fun p => do
    match ← g.completedRule p with
    | some rid => do
      let r ← g.rules.get? rid
      return "\t" ++ toString r.id ++ ",\n"
    | none => return "\t-1,\n")
  return hdr ++ String.join rows ++ "\x7d\n"

def Grammar.addRuleDescs (g : Grammar) : Option String := do
  let hdr ← g.addText ruleDescHeader
  let rows ← g.rules.mapM (fun r => do
    let tgt ← g.symNameAt r.target
    let itemNames ← r.items.mapM g.symNameAt
    return "\tgleanerrors.Rule\x7b" ++
      "\"" ++ r.name ++ "\", \"" ++ tgt ++ "\", []string\x7b" ++
      String.intercalate ", " (itemNames.map (fun nm => "\"" ++ nm ++ "\"")) ++
      "\x7d\x7d,\n")
  return hdr ++ String.join rows ++ "\x7d\n"

/-- The emission phase of `WriteParser` after `makePrefixes`: the
builder's final contents, the concatenation of the texts appended by the
emitter calls of `WriteParser`, in call order. -/
def Grammar.emitAll (g : Grammar) : Option String := do
  let parts ← List.mapM id
    [g.addText boilerplate, g.addParserType, g.addApplyTrace, g.addFollowers,
     g.addLastTerminal, g.addExtendedBy, g.addExtensions, g.addSymbolFinished,
     g.addTokenType, g.addGoalPrefixes, g.addApplyTerminal, g.addAppliers,
     g.addPfx2Rule, g.addRuleDescs]
  return String.join parts

/-! ### `Grammar.WriteParser` -/

/-- What a call to `WriteParser` does: either it panics, or it returns a
text and possibly an error (Go returns the pair `(string, error)`). -/
inductive WPRet where
  | panicked
  | ret (text : String) (err : Option String)
deriving Repr, DecidableEq

def Grammar.lookupSym (g : Grammar) (name : String) : Option Nat :=
  g.syms.findIdx? (fun s => s.name = name)

/-- `Grammar.WriteParser(goal, packname, prepend)`.  `order` is the map
iteration order used by `sortSymbols` (see above).  Returns the grammar
state after the call together with the call's outcome. -/
def Grammar.writeParser (g : Grammar) (order : List Nat)
    (goal packname prepend : String) : Grammar × WPRet :=
  if g.rulenames.length = 0 then
    (g, .ret "" (some ("grammar has no rules")))
  else if !isIdent goal then
    (g, .ret "" (some ("goal '" ++ goal ++ "' is not a valid Go identifier")))
  else if !isIdent packname then
    (g, .ret "" (some ("package name '" ++ packname ++ "' is not a valid Go identifier")))
  else if prepend ≠ "" ∧ !isIdent prepend then
    (g, .ret "" (some ("prefix '" ++ prepend ++ "' is not a valid Go identifier")))
  else
    let g := { g with goalname := goal, packname := packname, prepend := prepend }
    match g.sortSymbols order with
    | none => (g, .panicked)
    | some g =>
      let g := g.sortAllRules
      if g.terminals.length = 0 then
        (g, .ret "" (some ("grammar has no terminal symbols")))
      else if g.nonterminals.length = 0 then
        (g, .panicked)
      else
        let g := { g with goal := g.lookupSym g.goalname }
        match g.goal with
        | none =>
          (g, .ret "" (some ("unknown goal symbol '" ++ g.goalname ++ "'")))
        | some gi =>
          if g.symIsTerminal gi then
            (g, .ret "" (some ("goal '" ++ g.goalname ++ "' is a terminal symbol")))
          else
            match g.makePfxs with
            | none => (g, .panicked)
            | some g =>
              match g.emitAll with
              | none => (g, .panicked)
              | some text => (g, .ret text none)

/-- The failure condition of `AddRule`: some argument is not a legal
identifier, or the rule name is already taken. -/
def addRuleFails (g : Grammar) (name target : String) (items : List String) : Prop :=
  ¬ isIdent name = true ∨ ¬ isIdent target = true ∨
    (∃ it ∈ items, ¬ isIdent it = true) ∨ name ∈ g.rulenames

instance (g : Grammar) (name target : String) (items : List String) :
    Decidable (addRuleFails g name target items) := by
  unfold addRuleFails; infer_instance

/-- The rule-id list of the symbol at index `i` (empty when out of range;
newly interned symbols also start with no rules). -/
def Grammar.rulesAt (g : Grammar) (i : Nat) : List Nat :=
  ((g.syms.get? i).map Sym.rules).getD []

/- ===================== Theorems ===================== -/

theorem findIdx?_get? {α : Type} (p : α → Bool) (l : List α) :
    ∀ (j i : Nat), List.findIdx? p l j = some i →
      j ≤ i ∧ ∃ a, l.get? (i - j) = some a ∧ p a = true := by
  induction l with
  | nil => intro j i h; simp [List.findIdx?_nil] at h
  | cons x xs ih =>
    intro j i h
    rw [List.findIdx?_cons] at h
    by_cases hp : p x = true
    · rw [if_pos hp] at h
      cases h
      exact ⟨le_refl _, x, by simp, hp⟩
    · rw [if_neg hp] at h
      obtain ⟨hle, a, ha, hpa⟩ := ih (j + 1) i h
      refine ⟨by omega, a, ?_, hpa⟩
      have : i - j = (i - (j + 1)) + 1 := by omega
      rw [this]
      simpa using ha

theorem get?_mono {α : Type} {l1 l2 : List α} (h : l1 <+: l2) {i : Nat}
    {a : α} (ha : l1.get? i = some a) : l2.get? i = some a := by
  obtain ⟨t, rfl⟩ := h
  have hi : i < l1.length := by
    by_contra hn
    rw [List.get?_eq_getElem?, List.getElem?_eq_none (by omega)] at ha
    exact Option.noConfusion ha
  rw [List.get?_eq_getElem?, List.getElem?_append, if_pos hi, ← List.get?_eq_getElem?]
  exact ha

theorem symNameAt_mono {g g' : Grammar} (h : g.syms <+: g'.syms) {i : Nat}
    {n : String} (ha : g.symNameAt i = some n) : g'.symNameAt i = some n := by
  unfold Grammar.symNameAt at *
  cases hs : g.syms.get? i with
  | none => rw [hs] at ha; exact Option.noConfusion ha
  | some s =>
    rw [hs] at ha
    rw [get?_mono h hs]
    exact ha

/-- What `findSymbol` does: all fields except `syms` are untouched, the
symbol list is only extended, the returned index holds a symbol with the
requested name, and no rule list changes (a fresh symbol has none). -/
theorem findSym_spec (g : Grammar) (n : String) :
    (g.findSym n).1 = { g with syms := (g.findSym n).1.syms } ∧
    g.syms <+: (g.findSym n).1.syms ∧
    (g.findSym n).2 < (g.findSym n).1.syms.length ∧
    (g.findSym n).1.symNameAt (g.findSym n).2 = some n ∧
    (∀ i, (g.findSym n).1.rulesAt i = g.rulesAt i) ∧
    ((g.findSym n).2 < g.syms.length → (g.findSym n).1 = g) ∧
    (¬ (g.findSym n).2 < g.syms.length →
      (g.findSym n).1.syms = g.syms ++ [{ name := n }] ∧
      (g.findSym n).2 = g.syms.length) := by
  unfold Grammar.findSym
  cases hf : g.syms.findIdx? (fun s => s.name = n) with
  | some i =>
    dsimp only
    obtain ⟨-, s, hs, hps⟩ := findIdx?_get? _ _ 0 i hf
    simp only [Nat.sub_zero] at hs
    have hi : i < g.syms.length := by
      by_contra hn
      rw [List.get?_eq_getElem?, List.getElem?_eq_none (by omega)] at hs
      exact Option.noConfusion hs
    refine ⟨rfl, List.prefix_refl _, hi, ?_, fun _ => rfl, fun _ => rfl, fun h => absurd hi h⟩
    unfold Grammar.symNameAt
    rw [hs]
    simpa using hps
  | none =>
    dsimp only
    refine ⟨rfl, List.prefix_append _ _, by simp, ?_, ?_, ?_, ?_⟩
    · unfold Grammar.symNameAt
      rw [List.get?_eq_getElem?, List.getElem?_append_right (le_refl _)]
      simp
    · intro i
      unfold Grammar.rulesAt
      simp only [List.get?_eq_getElem?, List.getElem?_append]
      by_cases hi : i < g.syms.length
      · rw [if_pos hi]
      · rw [if_neg hi]
        rcases Nat.lt_or_ge (i - g.syms.length) 1 with h1 | h1
        · interval_cases h : (i - g.syms.length)
          · have : ¬ i < g.syms.length := hi
            simp [List.getElem?_eq_none (by omega : g.syms.length ≤ i)]
        · rw [List.getElem?_eq_none (by simpa using h1),
              List.getElem?_eq_none (by omega : g.syms.length ≤ i)]
    · intro h; omega
    · intro _; exact ⟨rfl, rfl⟩

/-- What the item-interning loop does, cumulatively. -/
theorem internItems_spec (items : List String) : ∀ g : Grammar,
    (g.internItems items).1 = { g with syms := (g.internItems items).1.syms } ∧
    g.syms <+: (g.internItems items).1.syms ∧
    (∀ i, (g.internItems items).1.rulesAt i = g.rulesAt i) ∧
    (g.internItems items).2.map (g.internItems items).1.symNameAt =
      items.map some := by
  induction items with
  | nil => intro g; exact ⟨rfl, List.prefix_refl _, fun _ => rfl, rfl⟩
  | cons it rest ih =>
    intro g
    obtain ⟨hframe1, hpfx1, hlt1, hname1, hrules1, -, -⟩ := findSym_spec g it
    obtain ⟨hframe2, hpfx2, hrules2, hnames2⟩ := ih (g.findSym it).1
    have hstep : g.internItems (it :: rest) =
        (((g.findSym it).1.internItems rest).1,
         (g.findSym it).2 :: ((g.findSym it).1.internItems rest).2) := rfl
    rw [hstep]
    refine ⟨?_, hpfx1.trans hpfx2, ?_, ?_⟩
    · rw [hframe2, hframe1]
    · intro i; rw [hrules2 i, hrules1 i]
    · simp only [List.map_cons]
      rw [hnames2, symNameAt_mono hpfx2 hname1]


/-- **C1.** For every call `AddRule(name, target, items)`: if `name` is not
a legal identifier, or `target` is not a legal identifier, or any element
of `items` is not a legal identifier, or the grammar already holds a rule
named `name`, then `AddRule` returns an error and the grammar is unchanged;
otherwise `AddRule` succeeds (returns no error). -/
theorem C1_addRule_validation (g : Grammar) (name target : String)
    (items : List String) :
    (addRuleFails g name target items →
      (g.addRule name target items).2.isSome = true ∧
      (g.addRule name target items).1 = g) ∧
    (¬ addRuleFails g name target items →
      (g.addRule name target items).2 = none) := by
  by_cases hn : isIdent name = true
  · by_cases ht : isIdent target = true
    · cases hfind : items.find? (fun it => !isIdent it) with
      | some it =>
        have hmem := List.mem_of_find?_eq_some hfind
        have hbad : ¬ isIdent it = true := by
          simpa using List.find?_some hfind
        have heq : g.addRule name target items = (g, some (.badItem it)) := by
          simp [Grammar.addRule, hn, ht, hfind]
        rw [heq]
        exact ⟨fun _ => ⟨rfl, rfl⟩,
          fun hno => absurd (Or.inr (Or.inr (Or.inl ⟨it, hmem, hbad⟩))) hno⟩
      | none =>
        have hall : ∀ it ∈ items, isIdent it = true := by
          intro it hit
          have := List.find?_eq_none.mp hfind it hit
          simpa using this
        by_cases hdup : name ∈ g.rulenames
        · have hc : g.rulenames.contains name = true :=
            List.elem_eq_true_of_mem hdup
          have heq : g.addRule name target items = (g, some (.dupName name)) := by
            simp [Grammar.addRule, hn, ht, hfind, hc, hdup]
          rw [heq]
          exact ⟨fun _ => ⟨rfl, rfl⟩,
            fun hno => absurd (Or.inr (Or.inr (Or.inr hdup))) hno⟩
        · have hc : ¬ g.rulenames.contains name = true := by
            intro hcc; exact hdup (List.mem_of_elem_eq_true hcc)
          have heq : (g.addRule name target items).2 = none := by
            simp [Grammar.addRule, hn, ht, hfind, hc, hdup]
          refine ⟨fun hf => ?_, fun _ => heq⟩
          rcases hf with h | h | ⟨it, hit, h⟩ | h
          · exact absurd hn h
          · exact absurd ht h
          · exact absurd (hall it hit) h
          · exact absurd h hdup
    · have heq : g.addRule name target items = (g, some (.badTarget target)) := by
        simp [Grammar.addRule, hn, ht]
      rw [heq]
      exact ⟨fun _ => ⟨rfl, rfl⟩, fun hno => absurd (Or.inr (Or.inl ht)) hno⟩
  · have heq : g.addRule name target items = (g, some (.badName name)) := by
      simp [Grammar.addRule, hn]
    rw [heq]
    exact ⟨fun _ => ⟨rfl, rfl⟩, fun hno => absurd (Or.inl hn) hno⟩

/-- Witness for C1 at concrete inputs: `"17"` is not a legal identifier,
so `AddRule("17", "T", [])` errors and leaves the empty grammar unchanged. -/
theorem C1_addRule_validation_witness :
    addRuleFails Grammar.empty "17" "T" [] ∧
    (Grammar.empty.addRule "17" "T" []).2.isSome = true ∧
    (Grammar.empty.addRule "17" "T" []).1 = Grammar.empty :=
  ⟨by decide,
   (C1_addRule_validation Grammar.empty "17" "T" []).1 (by decide)⟩

/-- `symNameAt` is unchanged by appending a rule id to some symbol's
rule list. -/
theorem symNameAt_modifyRules (g : Grammar) (t rid : Nat) (i : Nat) :
    (Grammar.symNameAt
      { g with syms := g.syms.modify (fun s => { s with rules := s.rules ++ [rid] }) t } i)
    = g.symNameAt i := by
  unfold Grammar.symNameAt
  simp only [List.get?_eq_getElem?, List.getElem?_modify]
  cases g.syms[i]? with
  | none => rfl
  | some s => by_cases ht : t = i <;> simp [ht]

/-- **C8.** For every successful call `AddRule(name, target, items)`:
the target and each item symbol are interned, a new rule is created whose
id equals the number of rules previously added, and the rule is appended
to the end of the target symbol's rule list; no other rule or symbol is
modified. -/
theorem C8_addRule_success (g g' : Grammar) (name target : String)
    (items : List String)
    (h : g.addRule name target items = (g', none)) :
    g'.rulenames = g.rulenames ++ [name] ∧
    g'.rules.length = g.rules.length + 1 ∧
    (∀ k, k < g.rules.length → g'.rules.get? k = g.rules.get? k) ∧
    (∃ t r, g'.rules.get? g.rules.length = some r ∧
      r.id = g.rules.length ∧ r.name = name ∧ r.target = t ∧
      g'.symNameAt t = some target ∧
      r.items.map g'.symNameAt = items.map some ∧
      g'.rulesAt t = g.rulesAt t ++ [g.rules.length] ∧
      (∀ i, i ≠ t → g'.rulesAt i = g.rulesAt i) ∧
      (∀ i, i < g.syms.length → i ≠ t → g'.syms.get? i = g.syms.get? i)) := by
  -- the call must have passed every validation
  by_cases hn : isIdent name = true
  case neg =>
    have : g.addRule name target items = (g, some (.badName name)) := by
      simp [Grammar.addRule, hn]
    rw [this] at h
    exact absurd (congrArg Prod.snd h) (by simp)
  by_cases ht : isIdent target = true
  case neg =>
    have : g.addRule name target items = (g, some (.badTarget target)) := by
      simp [Grammar.addRule, hn, ht]
    rw [this] at h
    exact absurd (congrArg Prod.snd h) (by simp)
  cases hfind : items.find? (fun it => !isIdent it) with
  | some it =>
    have : g.addRule name target items = (g, some (.badItem it)) := by
      simp [Grammar.addRule, hn, ht, hfind]
    rw [this] at h
    exact absurd (congrArg Prod.snd h) (by simp)
  | none =>
  by_cases hdup : name ∈ g.rulenames
  case pos =>
    have : g.addRule name target items = (g, some (.dupName name)) := by
      simp [Grammar.addRule, hn, ht, hfind, hdup]
    rw [this] at h
    exact absurd (congrArg Prod.snd h) (by simp)
  -- the success branch
  have hcall : g.addRule name target items = (g.addRuleGo name target items, none) := by
    simp [Grammar.addRule, hn, ht, hfind, hdup]
  rw [hcall] at h
  injection h with h1 _
  rw [← h1]
  clear h1 hcall
  unfold Grammar.addRuleGo
  dsimp only
  set A : Grammar := { g with rulenames := g.rulenames ++ [name] } with hA
  obtain ⟨f1, f2, f3, f4, f5, -, -⟩ := findSym_spec A target
  set G1 := (A.findSym target).1 with hG1
  set T := (A.findSym target).2 with hT
  obtain ⟨i1, i2, i3, i4⟩ := internItems_spec items G1
  set G2 := (G1.internItems items).1 with hG2
  set IDX := (G1.internItems items).2 with hIDX
  have hG2rules : G2.rules = g.rules := by rw [i1]; rw [f1]
  have hG2names : G2.rulenames = g.rulenames ++ [name] := by rw [i1]; rw [f1]
  have hpfx : g.syms <+: G2.syms := f2.trans i2
  have hrulesAt : ∀ i, G2.rulesAt i = g.rulesAt i := fun i => (i3 i).trans (f5 i)
  have hTlt : T < G2.syms.length := lt_of_lt_of_le f3 i2.length_le
  have hlen : G2.rules.length = g.rules.length := by rw [hG2rules]
  refine ⟨hG2names, ?_, ?_, T, ⟨name, T, IDX, G2.rules.length, none⟩,
    ?_, hlen, rfl, rfl, ?_, ?_, ?_, ?_, ?_⟩
  · simp [hG2rules]
  · intro k hk
    simp only [List.get?_eq_getElem?, List.getElem?_append, hG2rules]
    rw [if_pos hk]
  · simp only [List.get?_eq_getElem?, hG2rules]
    exact List.getElem?_concat_length _ _
  · -- target symbol name
    simp only [Grammar.symNameAt, List.get?_eq_getElem?, List.getElem?_modify]
    have hf4 : G2.symNameAt T = some target := symNameAt_mono i2 f4
    simp only [Grammar.symNameAt, List.get?_eq_getElem?] at hf4
    cases hgt : G2.syms[T]? with
    | none => rw [hgt] at hf4; exact Option.noConfusion hf4
    | some s =>
      rw [hgt] at hf4
      simp only [Option.map_some] at hf4 ⊢
      simpa using hf4
  · -- item names
    rw [← i4]
    apply List.map_congr_left
    intro a _
    simp only [Grammar.symNameAt, List.get?_eq_getElem?, List.getElem?_modify]
    cases hga : G2.syms[a]? with
    | none => rfl
    | some s => by_cases hta : T = a <;> simp [hta]
  · -- target rule list gains the new id at the end
    simp only [Grammar.rulesAt, List.get?_eq_getElem?, List.getElem?_modify]
    obtain ⟨s, hs⟩ : ∃ s, G2.syms[T]? = some s := by
      rcases h2 : G2.syms[T]? with - | s
      · rw [List.getElem?_eq_none_iff] at h2; omega
      · exact ⟨s, rfl⟩
    have hru := hrulesAt T
    simp only [Grammar.rulesAt, List.get?_eq_getElem?] at hru
    rw [hs, ← hru, hs]
    simp [hG2rules]
  · -- other rule lists unchanged
    intro i hi
    simp only [Grammar.rulesAt, List.get?_eq_getElem?, List.getElem?_modify]
    have hru := hrulesAt i
    simp only [Grammar.rulesAt, List.get?_eq_getElem?] at hru
    rw [← hru]
    cases hgi : G2.syms[i]? with
    | none => rfl
    | some s => simp [hgi, if_neg (by omega : ¬ T = i)]
  · -- other symbol records unchanged
    intro i hilt hi
    simp only [List.get?_eq_getElem?, List.getElem?_modify]
    obtain ⟨s, hgsome⟩ : ∃ s, g.syms[i]? = some s := by
      rcases h2 : g.syms[i]? with - | s
      · rw [List.getElem?_eq_none_iff] at h2; omega
      · exact ⟨s, rfl⟩
    have h2 : G2.syms[i]? = some s := by
      have := get?_mono hpfx (i := i) (a := s)
        (by rw [List.get?_eq_getElem?]; exact hgsome)
      rw [List.get?_eq_getElem?] at this
      exact this
    rw [h2, hgsome]
    simp [if_neg (by omega : ¬ T = i)]
/-- Witness for C8 at a concrete successful call: adding
`RuleAdd: Sum → int int` to the empty grammar records the rule name. -/
theorem C8_addRule_success_witness :
    (Grammar.empty.addRule "RuleAdd" "Sum" ["int", "int"]).1.rulenames =
      Grammar.empty.rulenames ++ ["RuleAdd"] :=
  (C8_addRule_success Grammar.empty
    (Grammar.empty.addRule "RuleAdd" "Sum" ["int", "int"]).1
    "RuleAdd" "Sum" ["int", "int"] rfl).1

end Glean

